import Mathlib

/-!
Verification of the peer-review-vs-vanilla evaluation pipeline.

Shallow embedding of the Python sources:
  * `src/reports/statistical_tests.py`   — statistical toolkit and outcome resolution
  * `src/judging/judge_pairwise_ab.py`   — blind A/B assignment
  * `src/generation/generate_reviews_dual.py` — resumable generation stage
  * `run_experiment.py`                  — pipeline runner and checkpointing
  * `src/generation/llm_client.py`       — remote caller with bounded retry

Modelling conventions:
  * Python `float` arithmetic is idealised as real-number arithmetic (`ℝ`);
    decimal literals denote their exact decimal value.  Cohen's kappa uses
    only field operations on counts, so it is embedded over `ℚ`, which keeps
    it executable.
  * Python `str` is `String`; `.lower()` / `.strip()` are embedded as
    explicit character-list operations (`pyLower`, `pyStrip`) matching
    Python semantics on the ASCII data that flows through these functions.
  * Python stdlib primitives that the repository only calls
    (`hashlib.md5`, `random.Random`) are parameters of the embedding: each
    is a pure function of its argument, which is exactly the stdlib
    contract the code relies on.
  * File/network effects are explicit: record files are lists of records,
    the remote service is a function from attempt number to a response,
    the checkpoint file is threaded state.
-/

namespace PeerReview

open Finset

/-! ## `src/reports/statistical_tests.py` -/

/-- `_log_comb(n, k)`: `math.lgamma(n+1) - math.lgamma(k+1) - math.lgamma(n-k+1)`.
For positive real arguments `math.lgamma x = Real.log (Real.Gamma x)`. -/
noncomputable def _log_comb (n k : ℕ) : ℝ :=
  Real.log (Real.Gamma ((n : ℝ) + 1)) - Real.log (Real.Gamma ((k : ℝ) + 1))
    - Real.log (Real.Gamma (((n - k : ℕ) : ℝ) + 1))

/-- `_binomial_cdf(k, n, p)`: exact binomial CDF via a log-space sum.
`k` is an `ℤ` because the caller passes `successes - 1`, which can be `-1`. -/
noncomputable def _binomial_cdf (k : ℤ) (n : ℕ) (p : ℝ) : ℝ :=
  if k < 0 then 0
  else if (n : ℤ) ≤ k then 1
  else
    min (∑ i ∈ Finset.range (k.toNat + 1),
      Real.exp (_log_comb n i + (i : ℝ) * Real.log p + ((n : ℝ) - (i : ℝ)) * Real.log (1 - p))) 1

/-- `binomial_test_two_sided(successes, trials, p0)`. -/
noncomputable def binomial_test_two_sided (successes trials : ℕ) (p0 : ℝ) : ℝ :=
  if trials = 0 then 1
  else
    let p_upper := 1 - _binomial_cdf ((successes : ℤ) - 1) trials p0
    let p_lower := _binomial_cdf (successes : ℤ) trials p0
    min (2 * min p_upper p_lower) 1

/-- `wilson_ci(successes, trials, z)`: Wilson score confidence interval. -/
noncomputable def wilson_ci (successes trials : ℕ) (z : ℝ) : ℝ × ℝ :=
  if trials = 0 then (0, 1)
  else
    let p_hat : ℝ := (successes : ℝ) / (trials : ℝ)
    let denom : ℝ := 1 + z ^ 2 / (trials : ℝ)
    let center := (p_hat + z ^ 2 / (2 * (trials : ℝ))) / denom
    let spread := z * Real.sqrt ((p_hat * (1 - p_hat) + z ^ 2 / (4 * (trials : ℝ))) / (trials : ℝ)) / denom
    (max 0 (center - spread), min 1 (center + spread))

/-- `cohens_h(p1, p2) = 2*asin(sqrt p1) - 2*asin(sqrt p2)`. -/
noncomputable def cohens_h (p1 p2 : ℝ) : ℝ :=
  2 * Real.arcsin (Real.sqrt p1) - 2 * Real.arcsin (Real.sqrt p2)

open Classical in
/-- `interpret_effect_size(h)`. -/
noncomputable def interpret_effect_size (h : ℝ) : String :=
  if |h| < 0.2 then "negligible"
  else if |h| < 0.5 then "small"
  else if |h| < 0.8 then "medium"
  else "large"

/-- `cohens_kappa(outcomes_1, outcomes_2)`.  The Python source iterates over
`sorted(set(outcomes_1) | set(outcomes_2))`; the embedding iterates over
`dedup` of the concatenation — the same collection of distinct categories,
and the order of summation does not affect `p_e`. -/
def cohens_kappa (outcomes_1 outcomes_2 : List String) : ℚ :=
  let n := outcomes_1.length
  if n = 0 then 0
  else
    let categories := (outcomes_1 ++ outcomes_2).dedup
    let agree := ((outcomes_1.zip outcomes_2).filter (fun ab => ab.1 == ab.2)).length
    let p_o : ℚ := (agree : ℚ) / (n : ℚ)
    let p_e : ℚ := (categories.map (fun cat =>
        ((outcomes_1.count cat : ℚ) / (n : ℚ)) * ((outcomes_2.count cat : ℚ) / (n : ℚ)))).sum
    if 1 ≤ p_e then 1 else (p_o - p_e) / (1 - p_e)

/-- Python `str.lower()` (the data here is ASCII). -/
def pyLower (s : String) : String := ⟨s.data.map Char.toLower⟩

/-- Python `str.strip()`: drop leading and trailing whitespace. -/
def pyStrip (s : String) : String :=
  ⟨((s.data.dropWhile Char.isWhitespace).reverse.dropWhile Char.isWhitespace).reverse⟩

/-- `(row.get("winner") or "").lower().strip()`. -/
def pyNormalizeVerdict (winner : Option String) : String :=
  pyStrip (pyLower (winner.getD ""))

/-- `resolve_winner(row)`: map the raw A/B verdict back to a condition.
`cond_A`/`cond_B` are `Option String` because `row.get` can yield `None`. -/
def resolve_winner (winner : Option String) (cond_A cond_B : Option String) : Option String :=
  let w := pyNormalizeVerdict winner
  if w = "tie" then some "tie"
  else if w = "a" then cond_A
  else if w = "b" then cond_B
  else some "tie"

/-- Per-judge statistics record returned by `analyze_single_judge`. -/
structure JudgeStats where
  judge : String
  total_examples : ℕ
  peer_wins : ℕ
  vanilla_wins : ℕ
  ties : ℕ
  peer_win_rate_total : ℝ
  vanilla_win_rate_total : ℝ
  tie_rate : ℝ
  peer_win_rate_non_tie : ℝ
  binomial_p_value : ℝ
  significant_at_005 : Prop
  ci_95_lower : ℝ
  ci_95_upper : ℝ
  cohens_h : ℝ
  effect_size : String

/-- `analyze_single_judge(outcomes, judge_name)`. -/
noncomputable def analyze_single_judge (outcomes : List String) (judge_name : String) : JudgeStats :=
  let total := outcomes.length
  let peer_wins := outcomes.count "peer"
  let vanilla_wins := outcomes.count "vanilla"
  let ties := outcomes.count "tie"
  let non_tie := peer_wins + vanilla_wins
  let p_val := if 0 < non_tie then binomial_test_two_sided peer_wins non_tie (1/2) else 1
  let ci := if 0 < non_tie then wilson_ci peer_wins non_tie 1.96 else (0, 1)
  let peer_rate : ℝ := if 0 < non_tie then (peer_wins : ℝ) / (non_tie : ℝ) else 1/2
  let h := if 0 < non_tie then cohens_h peer_rate (1/2) else 0
  { judge := judge_name
    total_examples := total
    peer_wins := peer_wins
    vanilla_wins := vanilla_wins
    ties := ties
    peer_win_rate_total := if total ≠ 0 then (peer_wins : ℝ) / (total : ℝ) else 0
    vanilla_win_rate_total := if total ≠ 0 then (vanilla_wins : ℝ) / (total : ℝ) else 0
    tie_rate := if total ≠ 0 then (ties : ℝ) / (total : ℝ) else 0
    peer_win_rate_non_tie := peer_rate
    binomial_p_value := p_val
    significant_at_005 := p_val < 0.05
    ci_95_lower := ci.1
    ci_95_upper := ci.2
    cohens_h := h
    effect_size := interpret_effect_size h }

/-! Reference (spec-side) binomial tail probabilities at null proportion 1/2:
`lowerTailHalf k n = P(X ≤ k)` and `upperTailHalf k n = P(X ≥ k)` for
`X ~ Binomial(n, 1/2)`.  Claim C2 relates the code's log-space computation to
these. -/

/-- Spec-side `P(X ≤ k)` for `X ~ Binomial(n, 1/2)`. -/
noncomputable def lowerTailHalf (k n : ℕ) : ℝ :=
  ∑ i ∈ Finset.range (k + 1), (n.choose i : ℝ) * (1/2 : ℝ) ^ n

/-- Spec-side `P(X ≥ k)` for `X ~ Binomial(n, 1/2)`. -/
noncomputable def upperTailHalf (k n : ℕ) : ℝ :=
  ∑ i ∈ Finset.Icc k n, (n.choose i : ℝ) * (1/2 : ℝ) ^ n

/-! ## `src/judging/judge_pairwise_ab.py` — blind A/B assignment -/

/-- `RANDOM_SEED` from `src/config.py`. -/
def RANDOM_SEED : ℕ := 42

/-- Lines 152–161 of `judge_pairwise_ab.py`:
`seed = int(hashlib.md5(paper_id.encode()).hexdigest()[:8], 16)`,
`rng = random.Random(RANDOM_SEED + seed)`, `rng.random() < 0.5`.
`md5trunc` models the first expression and `randBelowHalf s` models
"the first draw of a fresh `random.Random(s)` is `< 0.5`"; both are pure
functions of their argument (the stdlib contract the code relies on). -/
def assignSlots (md5trunc : String → ℕ) (randBelowHalf : ℕ → Bool) (paper_id : String) :
    String × String :=
  if randBelowHalf (RANDOM_SEED + md5trunc paper_id) then ("peer", "vanilla")
  else ("vanilla", "peer")

/-- The assignment computation as it sits inside `main`: the judge number
(`--judge 1` vs `--judge 2`) and the ambient global RNG state (seeded by
`random.seed(RANDOM_SEED)`) are in scope but are not read by the
assignment, which uses a generator local to the record. -/
def judgeAssign (md5trunc : String → ℕ) (randBelowHalf : ℕ → Bool)
    (judge : ℕ) (globalRngState : ℕ) (paper_id : String) : String × String :=
  assignSlots md5trunc randBelowHalf paper_id

/-! ## `src/generation/generate_reviews_dual.py` — resumable generation stage -/

/-- `GEN_MODEL_NAME` from `src/config.py`. -/
def GEN_MODEL_NAME : String := "openai/gpt-5.2"

/-- `GEN_PAPER_MAX_CHARS` from `src/config.py`. -/
def GEN_PAPER_MAX_CHARS : ℕ := 60000

/-- `FORBIDDEN_PHRASES`. -/
def FORBIDDEN_PHRASES : List String :=
  [ "only the title"
  , "only provided the title"
  , "text was not provided"
  , "full text was not provided"
  , "since you have only provided the title"
  , "provided text does not include"
  , "cannot review the specific"
  , "i cannot review"
  , "insufficient information"
  , "not provided beyond the title" ]

/-- `pat` matches an initial run of `l`. -/
def matchesAt : List Char → List Char → Bool
  | [], _ => true
  | _ :: _, [] => false
  | p :: ps, c :: cs => p == c && matchesAt ps cs

/-- `pat` occurs contiguously somewhere in `l`. -/
def occursIn (pat : List Char) : List Char → Bool
  | [] => pat.isEmpty
  | c :: cs => matchesAt pat (c :: cs) || occursIn pat cs

/-- Python `pattern in s` (substring test). -/
def containsSubstr (s pat : String) : Bool :=
  occursIn pat.data s.data

/-- `looks_invalid(review_text)`. -/
def looks_invalid (review_text : String) : Bool :=
  FORBIDDEN_PHRASES.any (fun p => containsSubstr (pyLower review_text) p)

/-- Python `str.rstrip()`. -/
def pyRStrip (s : String) : String :=
  ⟨(s.data.reverse.dropWhile Char.isWhitespace).reverse⟩

/-- Python `str.lstrip()`. -/
def pyLStrip (s : String) : String :=
  ⟨s.data.dropWhile Char.isWhitespace⟩

/-- `smart_truncate(text, max_chars)`: 60% head + 40% tail.
`int(max_chars * 0.6)` is written `max_chars * 6 / 10`; for the only
configured value (60000) both equal 36000. -/
def smart_truncate (text : String) (max_chars : ℕ) : String × String :=
  if text.length ≤ max_chars then (text, "no_truncation")
  else
    let head_len := max_chars * 6 / 10
    let tail_len := max_chars - head_len
    let head := pyRStrip (text.take head_len)
    let tail := pyLStrip (text.drop (text.length - tail_len))
    (head ++ "\n\n[...TRUNCATED...]\n\n" ++ tail, "head_tail")

/-- One line of `pairs.jsonl` (the fields the generation stage reads). -/
structure PairRow where
  paper_id : String
  paper_text : String
  deriving DecidableEq, Repr

/-- One line of a `reviews_*.jsonl` record file. -/
structure GenRecord where
  paper_id : String
  condition : String
  generated_review : Option String
  error : Option String
  paper_text_chars : ℕ
  truncation : String
  model : String
  deriving DecidableEq, Repr

/-- `load_existing_ids(path)`: paper ids that already have a successful
(`error is None`) record.  The file is a list of records; the Python set is
modelled by list membership. -/
def load_existing_ids (rows : List GenRecord) : List String :=
  (rows.filter (fun r => r.error == none)).map (fun r => r.paper_id)

/-- The remote call for one condition: `client.generate(prompt, ...)` either
returns review text or raises (modelled as `Except.error` with the
exception message).  Temperature and token limits are fixed configuration. -/
def GenOracle : Type := String → Except String String

/-- The body of one `try/except` block of the generation loop: build the
record for one `(pair, condition)`. -/
def genReview (oracle : GenOracle) (prompt : String) (paper_id cond : String)
    (chars : ℕ) (strat : String) : GenRecord :=
  match oracle prompt with
  | Except.ok review =>
      if looks_invalid review then
        ⟨paper_id, cond, none, some "INVALID: model claimed text was missing.",
          chars, strat, GEN_MODEL_NAME⟩
      else
        ⟨paper_id, cond, some review, none, chars, strat, GEN_MODEL_NAME⟩
  | Except.error e =>
      ⟨paper_id, cond, none, some e, chars, strat, GEN_MODEL_NAME⟩

/-- The main loop of `generate_reviews_dual.main` (lines 143–241): returns the
lists of records newly appended to the peer and vanilla files.  The done-sets
are computed once before the loop, as in the source. -/
def genLoop (oracle : GenOracle) (template_peer template_vanilla skill : String)
    (done_peer done_vanilla done_both : List String) :
    List PairRow → List GenRecord × List GenRecord
  | [] => ([], [])
  | row :: rest =>
      let restOut := genLoop oracle template_peer template_vanilla skill
        done_peer done_vanilla done_both rest
      if row.paper_id ∈ done_both then restOut
      else
        let tr := smart_truncate row.paper_text GEN_PAPER_MAX_CHARS
        let newP :=
          if row.paper_id ∈ done_peer then []
          else
            let prompt_peer := (template_peer.replace "{peer_review_skill}" skill).replace
              "{paper_text}" tr.1
            [genReview oracle prompt_peer row.paper_id "peer" tr.1.length tr.2]
        let newV :=
          if row.paper_id ∈ done_vanilla then []
          else
            let prompt_vanilla := template_vanilla.replace "{paper_text}" tr.1
            [genReview oracle prompt_vanilla row.paper_id "vanilla" tr.1.length tr.2]
        (newP ++ restOut.1, newV ++ restOut.2)

/-- One run of the generation stage: final contents of the two record files.
The open mode is `mode_p = "a" if done_peer else "w"` (lines 137–138): when a
file has at least one successful record it is opened in append mode and its
existing records survive; when it has none it is opened in write mode, which
truncates it — any purely-failed records it held are discarded before the new
records are written. -/
def runGenStage (oracle : GenOracle) (template_peer template_vanilla skill : String)
    (pairs : List PairRow) (peer0 vanilla0 : List GenRecord) :
    List GenRecord × List GenRecord :=
  let done_peer := load_existing_ids peer0
  let done_vanilla := load_existing_ids vanilla0
  let newRecs := genLoop oracle template_peer template_vanilla skill
    done_peer done_vanilla (done_peer.inter done_vanilla) pairs
  ((if done_peer = [] then [] else peer0) ++ newRecs.1,
   (if done_vanilla = [] then [] else vanilla0) ++ newRecs.2)

/-! ## `run_experiment.py` — pipeline runner and checkpoint -/

/-- The persisted checkpoint (fields the claims are about; the ISO timestamp
and detail map are omitted — wall-clock time is outside the embedding). -/
structure Checkpoint where
  last_completed_step : ℕ
  status : String
  deriving DecidableEq, Repr

/-- The checkpoint tag each step function passes to `save_checkpoint` on
success (steps 1–4). -/
def stepTag (k : ℕ) : String :=
  if k = 1 then "reviews_generated"
  else if k = 2 then "judge1_complete"
  else if k = 3 then "judge2_complete"
  else "experiment_complete"

/-- The `for step_num in steps_to_run` loop of `run_experiment.main`
(lines 319–338): each stage body either completes (and persists its own
checkpoint via `save_checkpoint(step_num, tag)`) or raises with a message.
Returns the final persisted checkpoint and the run's outcome
(`Except.error` = the exception propagates, non-zero exit). -/
def runSteps (stage : ℕ → Except String Unit) :
    List ℕ → Option Checkpoint → Option Checkpoint × Except String Unit
  | [], cp => (cp, Except.ok ())
  | k :: rest, cp =>
      match stage k with
      | Except.ok _ => runSteps stage rest (some ⟨k, stepTag k⟩)
      | Except.error e =>
          (some ⟨k - 1, "error_at_step_" ++ toString k ++ ": " ++ e.take 200⟩,
            Except.error e)

/-! ## `src/generation/llm_client.py` — remote caller with bounded retry -/

/-- `MAX_RETRIES` from `src/config.py`. -/
def MAX_RETRIES : ℕ := 3

/-- `RETRY_DELAY` from `src/config.py` (`2.0` seconds). -/
def RETRY_DELAY : ℚ := 2

/-- `RETRYABLE_STATUS_CODES`. -/
def RETRYABLE_STATUS_CODES : List ℕ := [429, 500, 502, 503, 504]

/-- Outcome of one `requests.post` attempt, indexed by attempt number:
an HTTP response (status, extracted message content, body text), a timeout,
or a connection error. -/
inductive NetResponse where
  | http (status : ℕ) (content : String) (body : String)
  | timeout
  | connectionError (msg : String)

/-- The retry loop of `LLMClient.generate` (lines 51–120).  `rem` is the
number of loop iterations left (`MAX_RETRIES - attempt + 1`); the second
component collects the backoff delays slept (`RETRY_DELAY * 2^(attempt-1)`
seconds each).  An `Except.error` result models the raised exception. -/
def generateAux (net : ℕ → NetResponse) :
    ℕ → ℕ → Option String → Except String String × List ℚ
  | 0, _, lastError =>
      (Except.error (lastError.getD ("Failed after " ++ toString MAX_RETRIES ++ " retries.")), [])
  | rem + 1, attempt, _ =>
      match net attempt with
      | NetResponse.http status content body =>
          if status = 200 then
            let c := pyStrip content
            if c = "" then (Except.error "Empty response from model.", [])
            else (Except.ok c, [])
          else if status ∈ RETRYABLE_STATUS_CODES then
            let delay := RETRY_DELAY * 2 ^ (attempt - 1)
            let r := generateAux net rem (attempt + 1)
              (some ("HTTP " ++ toString status ++ ": " ++ body.take 200))
            (r.1, delay :: r.2)
          else
            (Except.error ("OpenRouter error HTTP " ++ toString status ++ ": " ++ body.take 500), [])
      | NetResponse.timeout =>
          let delay := RETRY_DELAY * 2 ^ (attempt - 1)
          let r := generateAux net rem (attempt + 1) (some "Request timed out after 180s")
          (r.1, delay :: r.2)
      | NetResponse.connectionError m =>
          let delay := RETRY_DELAY * 2 ^ (attempt - 1)
          let r := generateAux net rem (attempt + 1) (some ("Connection error: " ++ m))
          (r.1, delay :: r.2)

/-- `LLMClient.generate`: run the loop from attempt 1 with `last_error = None`. -/
def LLMClient_generate (net : ℕ → NetResponse) : Except String String × List ℚ :=
  generateAux net MAX_RETRIES 1 none

/-! ## Concrete fixtures used by witness theorems -/

/-- A service that times out on every attempt. -/
def netAllTimeout : ℕ → NetResponse := fun _ => NetResponse.timeout

/-- A stage function where step 2 raises `"boom"` and every other step
completes. -/
def stageBoom : ℕ → Except String Unit :=
  fun j => if j = 2 then Except.error "boom" else Except.ok ()

/-- A remote generation service that always returns the same review text. -/
def oracleOk : GenOracle := fun _ => Except.ok "A fine review."

/-- One concrete input pair. -/
def pairsOne : List PairRow := [⟨"p1", "some paper text"⟩]

/-- A peer record file in which `p1` already succeeded. -/
def peerDone : List GenRecord :=
  [⟨"p1", "peer", some "r", none, 15, "no_truncation", "openai/gpt-5.2"⟩]

/-- A vanilla record file in which `p1` already succeeded. -/
def vanillaDone : List GenRecord :=
  [⟨"p1", "vanilla", some "r", none, 15, "no_truncation", "openai/gpt-5.2"⟩]

/-! ## Helper lemmas -/

/-- Zipping a list with itself pairs each element with itself. -/
lemma zip_self_eq (L : List String) : ∀ p ∈ L.zip L, p.1 = p.2 := by
  induction L with
  | nil => intro p hp; simp at hp
  | cons a t ih =>
      intro p hp
      rw [List.zip_cons_cons, List.mem_cons] at hp
      rcases hp with h | h
      · rw [h]
      · exact ih p h

/-- If every pair is already in the done-both set, the generation loop emits
nothing. -/
lemma genLoop_all_done (oracle : GenOracle) (tp tv skill : String)
    (dp dv db : List String) :
    ∀ pairs : List PairRow, (∀ pr ∈ pairs, pr.paper_id ∈ db) →
      genLoop oracle tp tv skill dp dv db pairs = ([], []) := by
  intro pairs
  induction pairs with
  | nil => intro _; rfl
  | cons row rest ih =>
      intro h
      have hr : row.paper_id ∈ db := h row (List.mem_cons_self _ _)
      have hrest := ih (fun pr hpr => h pr (List.mem_cons_of_mem _ hpr))
      simp only [genLoop, hrest, if_pos hr]

/-- The record built for a pair always carries that pair's id, whether the
call succeeded, was rejected as invalid, or raised. -/
lemma genReview_paper_id (oracle : GenOracle) (prompt pid cond : String)
    (chars : ℕ) (strat : String) :
    (genReview oracle prompt pid cond chars strat).paper_id = pid := by
  cases h : oracle prompt <;> simp [genReview, h]
  split <;> rfl

/-- A pair whose id is not in the successful-peer set gets a fresh peer record
emitted by the loop. -/
lemma genLoop_attempts (oracle : GenOracle) (tp tv skill : String)
    (dp dv : List String) :
    ∀ (pairs : List PairRow) (pr : PairRow), pr ∈ pairs → pr.paper_id ∉ dp →
      ∃ r ∈ (genLoop oracle tp tv skill dp dv (dp.inter dv) pairs).1,
        r.paper_id = pr.paper_id := by
  intro pairs
  induction pairs with
  | nil => intro pr h; simp at h
  | cons row rest ih =>
      intro pr hmem hnp
      rcases List.mem_cons.mp hmem with h | h
      · subst h
        have hnb : pr.paper_id ∉ dp.inter dv :=
          fun hc => hnp (List.mem_inter_iff.mp hc).1
        refine ⟨genReview oracle ((tp.replace "{peer_review_skill}" skill).replace "{paper_text}"
            (smart_truncate pr.paper_text GEN_PAPER_MAX_CHARS).1) pr.paper_id "peer"
            (smart_truncate pr.paper_text GEN_PAPER_MAX_CHARS).1.length
            (smart_truncate pr.paper_text GEN_PAPER_MAX_CHARS).2, ?_,
          genReview_paper_id _ _ _ _ _ _⟩
        simp only [genLoop, if_neg hnb, if_neg hnp]
        exact List.mem_append_left _ (List.mem_singleton.mpr rfl)
      · obtain ⟨r, hr, hrid⟩ := ih pr h hnp
        by_cases hb : row.paper_id ∈ dp.inter dv
        · refine ⟨r, ?_, hrid⟩
          simp only [genLoop, if_pos hb]
          exact hr
        · refine ⟨r, ?_, hrid⟩
          simp only [genLoop, if_neg hb]
          exact List.mem_append_right _ hr

/-- Successful-id membership: a paper id is in the done-set exactly when an
error-free record for it is present. -/
lemma mem_load_existing_ids (rows : List GenRecord) (pid : String) :
    pid ∈ load_existing_ids rows ↔ ∃ r ∈ rows, r.error = none ∧ r.paper_id = pid := by
  simp only [load_existing_ids, List.mem_map, List.mem_filter, beq_iff_eq]
  constructor
  · rintro ⟨r, ⟨hr, he⟩, hid⟩
    exact ⟨r, hr, he, hid⟩
  · rintro ⟨r, hr, he, hid⟩
    exact ⟨r, ⟨hr, he⟩, hid⟩

/-- The done-set of a concatenation of record files. -/
lemma load_existing_ids_append (a b : List GenRecord) :
    load_existing_ids (a ++ b) = load_existing_ids a ++ load_existing_ids b := by
  simp [load_existing_ids]

/-- When the remote call returns valid review text, the record built for the
pair is successful. -/
lemma genReview_success (oracle : GenOracle) (prompt pid cond : String)
    (chars : ℕ) (strat : String) (t : String)
    (hok : oracle prompt = Except.ok t) (hinv : looks_invalid t = false) :
    (genReview oracle prompt pid cond chars strat).error = none := by
  simp [genReview, hok, hinv]

/-- Under a service with no failures, every record the loop emits is
successful. -/
lemma genLoop_success (oracle : GenOracle) (tp tv skill : String)
    (dp dv db : List String)
    (hsucc : ∀ prompt, ∃ t, oracle prompt = Except.ok t ∧ looks_invalid t = false) :
    ∀ pairs : List PairRow,
      (∀ r ∈ (genLoop oracle tp tv skill dp dv db pairs).1, r.error = none)
      ∧ (∀ r ∈ (genLoop oracle tp tv skill dp dv db pairs).2, r.error = none) := by
  intro pairs
  induction pairs with
  | nil =>
      exact ⟨fun r h => by simp [genLoop] at h, fun r h => by simp [genLoop] at h⟩
  | cons row rest ih =>
      refine ⟨fun r hr => ?_, fun r hr => ?_⟩ <;>
      · simp only [genLoop] at hr
        split at hr
        · first
          | exact ih.1 r hr
          | exact ih.2 r hr
        · rcases List.mem_append.mp hr with hnew | hold
          · split at hnew
            · simp at hnew
            · rw [List.mem_singleton.mp hnew]
              obtain ⟨t, hok, hinv⟩ := hsucc _
              exact genReview_success oracle _ _ _ _ _ t hok hinv
          · first
            | exact ih.1 r hold
            | exact ih.2 r hold

/-- Under a service with no failures, a pair whose id is not in the
successful-peer set gets a fresh successful peer record. -/
lemma genLoop_covers (oracle : GenOracle) (tp tv skill : String)
    (dp dv : List String)
    (hsucc : ∀ prompt, ∃ t, oracle prompt = Except.ok t ∧ looks_invalid t = false) :
    ∀ (pairs : List PairRow) (pr : PairRow), pr ∈ pairs → pr.paper_id ∉ dp →
      ∃ r ∈ (genLoop oracle tp tv skill dp dv (dp.inter dv) pairs).1,
        r.paper_id = pr.paper_id ∧ r.error = none := by
  intro pairs pr hmem hnp
  obtain ⟨r, hr, hrid⟩ := genLoop_attempts oracle tp tv skill dp dv pairs pr hmem hnp
  refine ⟨r, hr, hrid, ?_⟩
  exact (genLoop_success oracle tp tv skill dp dv (dp.inter dv) hsucc pairs).1 r hr

/-- Like `genLoop_covers`, on the vanilla side. -/
lemma genLoop_covers_vanilla (oracle : GenOracle) (tp tv skill : String)
    (dp dv : List String)
    (hsucc : ∀ prompt, ∃ t, oracle prompt = Except.ok t ∧ looks_invalid t = false) :
    ∀ (pairs : List PairRow) (pr : PairRow), pr ∈ pairs → pr.paper_id ∉ dv →
      ∃ r ∈ (genLoop oracle tp tv skill dp dv (dp.inter dv) pairs).2,
        r.paper_id = pr.paper_id ∧ r.error = none := by
  intro pairs
  induction pairs with
  | nil => intro pr h; simp at h
  | cons row rest ih =>
      intro pr hmem hnv
      rcases List.mem_cons.mp hmem with h | h
      · subst h
        have hnb : pr.paper_id ∉ dp.inter dv :=
          fun hc => hnv (List.mem_inter_iff.mp hc).2
        obtain ⟨t, hok, hinv⟩ := hsucc (tv.replace "{paper_text}"
          (smart_truncate pr.paper_text GEN_PAPER_MAX_CHARS).1)
        refine ⟨genReview oracle (tv.replace "{paper_text}"
            (smart_truncate pr.paper_text GEN_PAPER_MAX_CHARS).1) pr.paper_id "vanilla"
            (smart_truncate pr.paper_text GEN_PAPER_MAX_CHARS).1.length
            (smart_truncate pr.paper_text GEN_PAPER_MAX_CHARS).2, ?_,
          genReview_paper_id _ _ _ _ _ _,
          genReview_success oracle _ _ _ _ _ t hok hinv⟩
        simp only [genLoop, if_neg hnb, if_neg hnv]
        exact List.mem_append_left _ (List.mem_singleton.mpr rfl)
      · obtain ⟨r, hr, hrid, hre⟩ := ih pr h hnv
        by_cases hb : row.paper_id ∈ dp.inter dv
        · refine ⟨r, ?_, hrid, hre⟩
          simp only [genLoop, if_pos hb]
          exact hr
        · refine ⟨r, ?_, hrid, hre⟩
          simp only [genLoop, if_neg hb]
          exact List.mem_append_right _ hr

/-- A record file whose done-set is empty and whose records are all
successful must be empty. -/
lemma ids_nil_all_success (l : List GenRecord)
    (hids : load_existing_ids l = []) (hs : ∀ r ∈ l, r.error = none) : l = [] := by
  cases l with
  | nil => rfl
  | cons r t =>
      exfalso
      have hr := hs r (List.mem_cons_self _ _)
      simp [load_existing_ids, hr] at hids

/-- Opening a file (mode `"w"` truncation when no successful record exists,
mode `"a"` otherwise) is stable once the appended records are all
successful: re-opening the resulting file keeps it intact. -/
lemma truncation_stable (file newRecs : List GenRecord)
    (hnew : ∀ r ∈ newRecs, r.error = none) :
    (if load_existing_ids ((if load_existing_ids file = [] then [] else file) ++ newRecs) = []
      then ([] : List GenRecord)
      else (if load_existing_ids file = [] then [] else file) ++ newRecs)
      = (if load_existing_ids file = [] then [] else file) ++ newRecs := by
  by_cases h : load_existing_ids ((if load_existing_ids file = [] then [] else file) ++ newRecs) = []
  · rw [if_pos h]
    rw [load_existing_ids_append] at h
    obtain ⟨hk, hn⟩ := List.append_eq_nil.mp h
    have hnr : newRecs = [] := ids_nil_all_success newRecs hn hnew
    have hkp : (if load_existing_ids file = [] then ([] : List GenRecord) else file) = [] := by
      by_cases h0 : load_existing_ids file = []
      · rw [if_pos h0]
      · exfalso
        rw [if_neg h0] at hk
        exact h0 hk
    rw [hnr, hkp]
    rfl
  · rw [if_neg h]

/-! ## Helper lemmas for the statistical claims -/

lemma exp_logpmf (n i : ℕ) (hi : i ≤ n) :
    Real.exp (_log_comb n i + (i : ℝ) * Real.log (1/2) + ((n : ℝ) - (i : ℝ)) * Real.log (1 - 1/2))
      = (n.choose i : ℝ) * (1/2 : ℝ) ^ n := by
  have hfn : (0:ℝ) < (n.factorial : ℝ) := by exact_mod_cast Nat.factorial_pos n
  have hfi : (0:ℝ) < (i.factorial : ℝ) := by exact_mod_cast Nat.factorial_pos i
  have hfni : (0:ℝ) < ((n - i).factorial : ℝ) := by exact_mod_cast Nat.factorial_pos (n - i)
  have e1 : Real.exp (_log_comb n i)
      = (n.factorial : ℝ) / ((i.factorial : ℝ) * ((n - i).factorial : ℝ)) := by
    unfold _log_comb
    rw [Real.Gamma_nat_eq_factorial, Real.Gamma_nat_eq_factorial, Real.Gamma_nat_eq_factorial,
      Real.exp_sub, Real.exp_sub, Real.exp_log hfn, Real.exp_log hfi, Real.exp_log hfni,
      div_div]
  have e2 : Real.exp ((i : ℝ) * Real.log (1/2)) = (1/2 : ℝ) ^ i := by
    rw [Real.exp_nat_mul, Real.exp_log (by norm_num : (0:ℝ) < 1/2)]
  have e3 : Real.exp (((n : ℝ) - (i : ℝ)) * Real.log (1 - 1/2)) = (1/2 : ℝ) ^ (n - i) := by
    rw [show (1:ℝ) - 1/2 = 1/2 by norm_num, ← Nat.cast_sub hi,
      Real.exp_nat_mul, Real.exp_log (by norm_num : (0:ℝ) < 1/2)]
  rw [Real.exp_add, Real.exp_add, e1, e2, e3, Nat.cast_choose ℝ hi]
  have hpow : (1/2 : ℝ) ^ i * (1/2 : ℝ) ^ (n - i) = (1/2 : ℝ) ^ n := by
    rw [← pow_add, Nat.add_sub_cancel' hi]
  rw [mul_assoc, hpow]

lemma pmf_full_sum (n : ℕ) :
    ∑ i ∈ Finset.range (n + 1), (n.choose i : ℝ) * (1/2 : ℝ) ^ n = 1 := by
  rw [← Finset.sum_mul]
  have hchoose : (∑ i ∈ Finset.range (n + 1), (n.choose i : ℝ)) = (2 : ℝ) ^ n := by
    exact_mod_cast congrArg (Nat.cast (R := ℝ)) (Nat.sum_range_choose n)
  rw [hchoose, ← mul_pow]
  norm_num



lemma lowerTailHalf_le_one (k n : ℕ) (h : k ≤ n) : lowerTailHalf k n ≤ 1 := by
  unfold lowerTailHalf
  calc ∑ i ∈ Finset.range (k + 1), (n.choose i : ℝ) * (1/2 : ℝ) ^ n
      ≤ ∑ i ∈ Finset.range (n + 1), (n.choose i : ℝ) * (1/2 : ℝ) ^ n :=
        Finset.sum_le_sum_of_subset_of_nonneg
          (Finset.range_subset.mpr (by omega)) (fun i _ _ => by positivity)
    _ = 1 := pmf_full_sum n

lemma lowerTailHalf_eq_one (k n : ℕ) (h : n ≤ k) : lowerTailHalf k n = 1 := by
  unfold lowerTailHalf
  refine Eq.trans ?_ (pmf_full_sum n)
  refine (Finset.sum_subset
    (show Finset.range (n + 1) ⊆ Finset.range (k + 1) from Finset.range_subset.mpr (by omega))
    (fun i _ hni => ?_)).symm
  have hlt : n < i := by
    by_contra hcon
    push_neg at hcon
    exact hni (Finset.mem_range.mpr (by omega))
  simp [Nat.choose_eq_zero_of_lt hlt]

lemma cdf_half_eq (k n : ℕ) : _binomial_cdf (k : ℤ) n (1/2) = lowerTailHalf k n := by
  unfold _binomial_cdf
  rw [if_neg (by omega : ¬ (k : ℤ) < 0)]
  by_cases h : n ≤ k
  · rw [if_pos (by exact_mod_cast h)]
    exact (lowerTailHalf_eq_one k n h).symm
  · push_neg at h
    rw [if_neg (by exact_mod_cast not_le.mpr (by exact_mod_cast h : (k:ℤ) < (n:ℤ)))]
    rw [Int.toNat_natCast]
    rw [Finset.sum_congr rfl (fun i hi =>
      exp_logpmf n i (by have := Finset.mem_range.mp hi; omega))]
    exact min_eq_left (lowerTailHalf_le_one k n h.le)

lemma one_sub_cdf (k n : ℕ) (hk : 1 ≤ k) (hkn : k ≤ n) :
    1 - _binomial_cdf ((k : ℤ) - 1) n (1/2) = upperTailHalf k n := by
  have hcast : ((k : ℤ) - 1) = ((k - 1 : ℕ) : ℤ) := by omega
  rw [hcast, cdf_half_eq (k - 1) n]
  have hsplit : lowerTailHalf (k - 1) n + upperTailHalf k n = 1 := by
    unfold lowerTailHalf upperTailHalf
    rw [show k - 1 + 1 = k by omega, ← Nat.Ico_succ_right k n, Finset.range_eq_Ico,
      Finset.sum_Ico_consecutive _ (show 0 ≤ k by omega) (show k ≤ n + 1 by omega),
      ← Finset.range_eq_Ico]
    exact pmf_full_sum n
  linarith

lemma upperTailHalf_zero (n : ℕ) : upperTailHalf 0 n = 1 := by
  unfold upperTailHalf
  rw [← Nat.Ico_succ_right, ← Finset.range_eq_Ico]
  exact pmf_full_sum n

lemma binomial_test_half_eq (k n : ℕ) (hkn : k ≤ n) (hn : 0 < n) :
    binomial_test_two_sided k n (1/2)
      = min (2 * min (upperTailHalf k n) (lowerTailHalf k n)) 1 := by
  simp only [binomial_test_two_sided, if_neg (Nat.pos_iff_ne_zero.mp hn)]
  rw [cdf_half_eq k n]
  rcases Nat.eq_zero_or_pos k with rfl | hk
  · rw [show ((0:ℕ):ℤ) - 1 = (-1 : ℤ) by norm_num,
      show _binomial_cdf (-1) n (1/2) = 0 from by unfold _binomial_cdf; rw [if_pos (by norm_num)],
      upperTailHalf_zero]
    norm_num
  · rw [one_sub_cdf k n hk hkn]



lemma lowerTail_reflect (k n : ℕ) (h : k ≤ n) :
    lowerTailHalf k n = upperTailHalf (n - k) n := by
  unfold lowerTailHalf upperTailHalf
  rw [← Nat.Ico_succ_right, Finset.sum_Ico_eq_sum_range,
    show n + 1 - (n - k) = k + 1 by omega, ← Finset.sum_range_reflect]
  refine Finset.sum_congr rfl (fun j hj => ?_)
  have hjk : j < k + 1 := Finset.mem_range.mp hj
  congr 1
  rw [show k + 1 - 1 - j = k - j by omega, show n - k + j = n - (k - j) by omega]
  exact_mod_cast (Nat.choose_symm (show k - j ≤ n by omega)).symm


lemma wilson_core (p z N : ℝ) (hz : 0 < z) (hN : 0 < N) (hp0 : 0 ≤ p) (hp1 : p ≤ 1) :
    max 0 ((p + z ^ 2 / (2 * N)) / (1 + z ^ 2 / N)
        - z * Real.sqrt ((p * (1 - p) + z ^ 2 / (4 * N)) / N) / (1 + z ^ 2 / N)) ≤ p
    ∧ p ≤ min 1 ((p + z ^ 2 / (2 * N)) / (1 + z ^ 2 / N)
        + z * Real.sqrt ((p * (1 - p) + z ^ 2 / (4 * N)) / N) / (1 + z ^ 2 / N)) := by
  set D : ℝ := 1 + z ^ 2 / N with hDdef
  have hD : 0 < D := by positivity
  set E : ℝ := (p * (1 - p) + z ^ 2 / (4 * N)) / N with hEdef
  have hpp : 0 ≤ p * (1 - p) := mul_nonneg hp0 (by linarith)
  have hE : 0 ≤ E := div_nonneg (by positivity) hN.le
  set c : ℝ := (p + z ^ 2 / (2 * N)) / D with hcdef
  set s : ℝ := z * Real.sqrt E / D with hsdef
  have hs0 : 0 ≤ s := div_nonneg (mul_nonneg hz.le (Real.sqrt_nonneg E)) hD.le
  have hcp : c - p = z ^ 2 / N * (1 / 2 - p) / D := by
    rw [hcdef, hDdef]
    field_simp
    ring
  have hs2 : s ^ 2 = z ^ 2 * E / D ^ 2 := by
    rw [hsdef, div_pow, mul_pow, Real.sq_sqrt hE]
  have hsq : (c - p) ^ 2 ≤ s ^ 2 := by
    rw [hcp, hs2, div_pow, mul_pow]
    rw [div_le_div_iff_of_pos_right (by positivity : (0:ℝ) < D ^ 2)]
    rw [← mul_le_mul_right (by positivity : (0:ℝ) < N ^ 2)]
    have hL : (z ^ 2 / N) ^ 2 * (1 / 2 - p) ^ 2 * N ^ 2 = z ^ 4 * (1 / 2 - p) ^ 2 := by
      field_simp
      ring
    have hR : z ^ 2 * E * N ^ 2 = z ^ 2 * (p * (1 - p)) * N + z ^ 4 / 4 := by
      rw [hEdef]
      field_simp
      ring
    rw [hL, hR]
    nlinarith [mul_nonneg (mul_nonneg (sq_nonneg z) hpp) hN.le,
      mul_nonneg (mul_nonneg (sq_nonneg z) (sq_nonneg z)) hpp]
  have h1 : c - p ≤ s := by nlinarith [hsq, hs0]
  have h2 : p - c ≤ s := by nlinarith [hsq, hs0]
  constructor
  · exact max_le hp0 (by linarith)
  · exact le_min hp1 (by linarith)



lemma wilson_ci_props (k n : ℕ) (z : ℝ) (hz : 0 < z) (hkn : k ≤ n) (hn : 0 < n) :
    (wilson_ci k n z).1 ≤ (k : ℝ) / (n : ℝ)
    ∧ (k : ℝ) / (n : ℝ) ≤ (wilson_ci k n z).2
    ∧ 0 ≤ (wilson_ci k n z).1 ∧ (wilson_ci k n z).1 ≤ 1
    ∧ 0 ≤ (wilson_ci k n z).2 ∧ (wilson_ci k n z).2 ≤ 1 := by
  have hN : (0:ℝ) < (n : ℝ) := by exact_mod_cast hn
  have hp0 : (0:ℝ) ≤ (k : ℝ) / (n : ℝ) := by positivity
  have hp1 : (k : ℝ) / (n : ℝ) ≤ 1 := by
    rw [div_le_one hN]
    exact_mod_cast hkn
  have hcore := wilson_core ((k : ℝ) / (n : ℝ)) z (n : ℝ) hz hN hp0 hp1
  have hlo : (wilson_ci k n z).1
      = max 0 (((k : ℝ) / (n : ℝ) + z ^ 2 / (2 * (n : ℝ))) / (1 + z ^ 2 / (n : ℝ))
        - z * Real.sqrt (((k : ℝ) / (n : ℝ) * (1 - (k : ℝ) / (n : ℝ)) + z ^ 2 / (4 * (n : ℝ)))
          / (n : ℝ)) / (1 + z ^ 2 / (n : ℝ))) := by
    simp only [wilson_ci, if_neg hn.ne']
  have hhi : (wilson_ci k n z).2
      = min 1 (((k : ℝ) / (n : ℝ) + z ^ 2 / (2 * (n : ℝ))) / (1 + z ^ 2 / (n : ℝ))
        + z * Real.sqrt (((k : ℝ) / (n : ℝ) * (1 - (k : ℝ) / (n : ℝ)) + z ^ 2 / (4 * (n : ℝ)))
          / (n : ℝ)) / (1 + z ^ 2 / (n : ℝ))) := by
    simp only [wilson_ci, if_neg hn.ne']
  refine ⟨?_, ?_, ?_, ?_, ?_, ?_⟩
  · rw [hlo]; exact hcore.1
  · rw [hhi]; exact hcore.2
  · rw [hlo]; exact le_max_left _ _
  · rw [hlo]
    refine max_le (by norm_num) ?_
    have hmax := le_max_right (0:ℝ) (((k : ℝ) / (n : ℝ) + z ^ 2 / (2 * (n : ℝ))) / (1 + z ^ 2 / (n : ℝ))
        - z * Real.sqrt (((k : ℝ) / (n : ℝ) * (1 - (k : ℝ) / (n : ℝ)) + z ^ 2 / (4 * (n : ℝ)))
          / (n : ℝ)) / (1 + z ^ 2 / (n : ℝ)))
    linarith [le_trans hmax hcore.1, hp1]
  · rw [hhi]
    refine le_min (by norm_num) ?_
    have hmin := min_le_right (1:ℝ) (((k : ℝ) / (n : ℝ) + z ^ 2 / (2 * (n : ℝ))) / (1 + z ^ 2 / (n : ℝ))
        + z * Real.sqrt (((k : ℝ) / (n : ℝ) * (1 - (k : ℝ) / (n : ℝ)) + z ^ 2 / (4 * (n : ℝ)))
          / (n : ℝ)) / (1 + z ^ 2 / (n : ℝ)))
    linarith [le_trans hcore.2 hmin, hp0]
  · rw [hhi]; exact min_le_left _ _

/-! ## Claim theorems -/

/-- C1: Blind A/B assignment is a pure, deterministic function of the pair key
and the fixed global seed: the per-record assignment computation hashes the
pair key, seeds a local generator with `RANDOM_SEED` plus that hash, and draws
one boolean — it reads neither the judge number nor the ambient global RNG
state, so two evaluations (in different processes or for different judges)
produce the identical `(slot_A_condition, slot_B_condition)` pair. -/
theorem blind_assignment_deterministic :
    ∀ (md5trunc : String → ℕ) (randBelowHalf : ℕ → Bool)
      (judge₁ judge₂ g₁ g₂ : ℕ) (paper_id : String),
      judgeAssign md5trunc randBelowHalf judge₁ g₁ paper_id
        = judgeAssign md5trunc randBelowHalf judge₂ g₂ paper_id := by
  intros
  rfl

/-- C4 counterexample: the claim "for every list `L`, `cohens_kappa L L = 1`"
fails at the explicit input `L = []`: the code returns `0.0` for empty lists. -/
theorem cohens_kappa_empty_ne_one : cohens_kappa [] [] ≠ 1 := by
  simp [cohens_kappa]

/-- C4 (amended): Cohen's kappa is 1 whenever the two outcome lists are
identical and nonempty (the degenerate branch `p_e ≥ 1` also returns 1);
for the empty list the code returns 0 instead. -/
theorem cohens_kappa_self_eq_one :
    ∀ L : List String, L ≠ [] → cohens_kappa L L = 1 := by
  intro L hL
  have hn0 : L.length ≠ 0 := fun h => hL (List.length_eq_zero.mp h)
  have hn : (L.length : ℚ) ≠ 0 := Nat.cast_ne_zero.mpr hn0
  have hfil : ((L.zip L).filter (fun ab => ab.1 == ab.2)) = L.zip L :=
    List.filter_eq_self.mpr (fun p hp => by simpa using zip_self_eq L p hp)
  have hlen : (L.zip L).length = L.length := by simp
  simp only [cohens_kappa, hfil, hlen, if_neg hn0]
  rw [div_self hn]
  by_cases hpe : (1 : ℚ) ≤ (((L ++ L).dedup).map (fun cat =>
      ((L.count cat : ℚ) / (L.length : ℚ)) * ((L.count cat : ℚ) / (L.length : ℚ)))).sum
  · rw [if_pos hpe]
  · rw [if_neg hpe]
    exact div_self (sub_ne_zero.mpr (ne_of_gt (lt_of_not_le hpe)))

/-- C4 witness: the amended theorem applied at the concrete nonempty list
`["peer", "tie"]`. -/
theorem cohens_kappa_self_eq_one_witness :
    cohens_kappa ["peer", "tie"] ["peer", "tie"] = 1 :=
  cohens_kappa_self_eq_one ["peer", "tie"] (by decide)

/-- C6: a raw verdict that does not normalise (lowercase, strip) to exactly
`"a"`, `"b"` or `"tie"` — a missing verdict included — resolves to `"tie"`;
a verdict normalising to `"a"` resolves to the slot-A condition and `"b"` to
the slot-B condition (a judge response that fails to parse is recorded with
verdict `"tie"`, which the `"tie"` case resolves to `"tie"`). -/
theorem resolve_winner_spec :
    ∀ (w : Option String) (cond_A cond_B : Option String),
      (resolve_winner none cond_A cond_B = some "tie")
      ∧ (pyNormalizeVerdict w ∉ (["a", "b", "tie"] : List String) →
          resolve_winner w cond_A cond_B = some "tie")
      ∧ (pyNormalizeVerdict w = "a" → resolve_winner w cond_A cond_B = cond_A)
      ∧ (pyNormalizeVerdict w = "b" → resolve_winner w cond_A cond_B = cond_B)
      ∧ (pyNormalizeVerdict w = "tie" → resolve_winner w cond_A cond_B = some "tie") := by
  intro w cond_A cond_B
  refine ⟨rfl, ?_, ?_, ?_, ?_⟩
  · intro h
    simp only [List.mem_cons, List.not_mem_nil, or_false, not_or] at h
    obtain ⟨ha, hb, ht⟩ := h
    simp only [resolve_winner, if_neg ht, if_neg ha, if_neg hb]
  · intro h
    simp [resolve_winner, h]
  · intro h
    simp [resolve_winner, h]
  · intro h
    simp [resolve_winner, h]

/-- C6 witness: the theorem applied at concrete records — verdict `" A "`
(with surrounding whitespace and capitalisation) resolves to the slot-A
condition, and the unparseable verdict `"maybe"` resolves to `"tie"`. -/
theorem resolve_winner_spec_witness :
    resolve_winner (some " A ") (some "peer") (some "vanilla") = some "peer"
    ∧ resolve_winner (some "maybe") (some "peer") (some "vanilla") = some "tie" :=
  ⟨(resolve_winner_spec (some " A ") (some "peer") (some "vanilla")).2.2.1 (by decide),
   (resolve_winner_spec (some "maybe") (some "peer") (some "vanilla")).2.1 (by decide)⟩

/-- C7: the generation stage is resume-idempotent.  With a remote service
that has no failures (every call returns valid review text), running the
stage a second time after a first run issues no new work (the loop emits
nothing) and leaves the final record set exactly equal to the record set
after the single run — no duplicate records, no lost records (the open mode
`"a" if done else "w"` is accounted for: re-opening after a successful run
never truncates).  Moreover a paper id counts as done exactly when an
error-free record for it exists — a record with a failure reason set never
counts — and a pair without a successful peer record is re-attempted: the
run emits a fresh record for it. -/
theorem generation_stage_resume_idempotent :
    ∀ (oracle : GenOracle) (tp tv skill : String) (pairs : List PairRow)
      (peer0 vanilla0 : List GenRecord),
      (∀ prompt, ∃ t, oracle prompt = Except.ok t ∧ looks_invalid t = false) →
      (genLoop oracle tp tv skill
          (load_existing_ids (runGenStage oracle tp tv skill pairs peer0 vanilla0).1)
          (load_existing_ids (runGenStage oracle tp tv skill pairs peer0 vanilla0).2)
          ((load_existing_ids (runGenStage oracle tp tv skill pairs peer0 vanilla0).1).inter
            (load_existing_ids (runGenStage oracle tp tv skill pairs peer0 vanilla0).2)) pairs
          = ([], [])
        ∧ runGenStage oracle tp tv skill pairs
            (runGenStage oracle tp tv skill pairs peer0 vanilla0).1
            (runGenStage oracle tp tv skill pairs peer0 vanilla0).2
          = runGenStage oracle tp tv skill pairs peer0 vanilla0)
      ∧ (∀ (rows : List GenRecord) (pid : String),
          pid ∈ load_existing_ids rows ↔ ∃ r ∈ rows, r.error = none ∧ r.paper_id = pid)
      ∧ (∀ pr ∈ pairs, pr.paper_id ∉ load_existing_ids peer0 →
          ∃ r ∈ (genLoop oracle tp tv skill (load_existing_ids peer0)
              (load_existing_ids vanilla0)
              ((load_existing_ids peer0).inter (load_existing_ids vanilla0)) pairs).1,
            r.paper_id = pr.paper_id) := by
  intro oracle tp tv skill pairs peer0 vanilla0 hsucc
  have hNsucc := genLoop_success oracle tp tv skill (load_existing_ids peer0)
    (load_existing_ids vanilla0)
    ((load_existing_ids peer0).inter (load_existing_ids vanilla0)) hsucc pairs
  have hrun1 : runGenStage oracle tp tv skill pairs peer0 vanilla0
      = ((if load_existing_ids peer0 = [] then [] else peer0) ++
          (genLoop oracle tp tv skill (load_existing_ids peer0) (load_existing_ids vanilla0)
            ((load_existing_ids peer0).inter (load_existing_ids vanilla0)) pairs).1,
         (if load_existing_ids vanilla0 = [] then [] else vanilla0) ++
          (genLoop oracle tp tv skill (load_existing_ids peer0) (load_existing_ids vanilla0)
            ((load_existing_ids peer0).inter (load_existing_ids vanilla0)) pairs).2) := rfl
  have hcov : ∀ pr ∈ pairs,
      pr.paper_id ∈ load_existing_ids (runGenStage oracle tp tv skill pairs peer0 vanilla0).1
      ∧ pr.paper_id ∈ load_existing_ids (runGenStage oracle tp tv skill pairs peer0 vanilla0).2 := by
    intro pr hpr
    rw [hrun1]
    constructor
    · rw [load_existing_ids_append]
      by_cases hmem : pr.paper_id ∈ load_existing_ids peer0
      · rw [if_neg (List.ne_nil_of_mem hmem)]
        exact List.mem_append_left _ hmem
      · obtain ⟨r, hrm, hrid, hre⟩ := genLoop_covers oracle tp tv skill
          (load_existing_ids peer0) (load_existing_ids vanilla0) hsucc pairs pr hpr hmem
        exact List.mem_append_right _ ((mem_load_existing_ids _ _).mpr ⟨r, hrm, hre, hrid⟩)
    · rw [load_existing_ids_append]
      by_cases hmem : pr.paper_id ∈ load_existing_ids vanilla0
      · rw [if_neg (List.ne_nil_of_mem hmem)]
        exact List.mem_append_left _ hmem
      · obtain ⟨r, hrm, hrid, hre⟩ := genLoop_covers_vanilla oracle tp tv skill
          (load_existing_ids peer0) (load_existing_ids vanilla0) hsucc pairs pr hpr hmem
        exact List.mem_append_right _ ((mem_load_existing_ids _ _).mpr ⟨r, hrm, hre, hrid⟩)
  have hloop2 : genLoop oracle tp tv skill
      (load_existing_ids (runGenStage oracle tp tv skill pairs peer0 vanilla0).1)
      (load_existing_ids (runGenStage oracle tp tv skill pairs peer0 vanilla0).2)
      ((load_existing_ids (runGenStage oracle tp tv skill pairs peer0 vanilla0).1).inter
        (load_existing_ids (runGenStage oracle tp tv skill pairs peer0 vanilla0).2)) pairs
      = ([], []) :=
    genLoop_all_done oracle tp tv skill _ _ _ pairs
      (fun pr hpr => List.mem_inter_iff.mpr (hcov pr hpr))
  refine ⟨⟨hloop2, ?_⟩, mem_load_existing_ids, ?_⟩
  · have hrun2 : runGenStage oracle tp tv skill pairs
        (runGenStage oracle tp tv skill pairs peer0 vanilla0).1
        (runGenStage oracle tp tv skill pairs peer0 vanilla0).2
        = ((if load_existing_ids (runGenStage oracle tp tv skill pairs peer0 vanilla0).1 = []
              then []
              else (runGenStage oracle tp tv skill pairs peer0 vanilla0).1) ++
            (genLoop oracle tp tv skill
              (load_existing_ids (runGenStage oracle tp tv skill pairs peer0 vanilla0).1)
              (load_existing_ids (runGenStage oracle tp tv skill pairs peer0 vanilla0).2)
              ((load_existing_ids (runGenStage oracle tp tv skill pairs peer0 vanilla0).1).inter
                (load_existing_ids (runGenStage oracle tp tv skill pairs peer0 vanilla0).2))
              pairs).1,
           (if load_existing_ids (runGenStage oracle tp tv skill pairs peer0 vanilla0).2 = []
              then []
              else (runGenStage oracle tp tv skill pairs peer0 vanilla0).2) ++
            (genLoop oracle tp tv skill
              (load_existing_ids (runGenStage oracle tp tv skill pairs peer0 vanilla0).1)
              (load_existing_ids (runGenStage oracle tp tv skill pairs peer0 vanilla0).2)
              ((load_existing_ids (runGenStage oracle tp tv skill pairs peer0 vanilla0).1).inter
                (load_existing_ids (runGenStage oracle tp tv skill pairs peer0 vanilla0).2))
              pairs).2) := rfl
    rw [hrun2, hloop2]
    have hp := truncation_stable peer0
      (genLoop oracle tp tv skill (load_existing_ids peer0) (load_existing_ids vanilla0)
        ((load_existing_ids peer0).inter (load_existing_ids vanilla0)) pairs).1 hNsucc.1
    have hv := truncation_stable vanilla0
      (genLoop oracle tp tv skill (load_existing_ids peer0) (load_existing_ids vanilla0)
        ((load_existing_ids peer0).inter (load_existing_ids vanilla0)) pairs).2 hNsucc.2
    rw [hrun1]
    exact Prod.ext (by simpa using hp) (by simpa using hv)
  · intro pr hpr hnp
    exact genLoop_attempts oracle tp tv skill (load_existing_ids peer0)
      (load_existing_ids vanilla0) pairs pr hpr hnp

/-- C7 witness: the run-twice conjunct applied to the concrete always-valid
service, one pair, and record files in which `p1` already succeeded. -/
theorem generation_stage_resume_idempotent_witness :
    runGenStage oracleOk "tp" "tv" "sk" pairsOne
        (runGenStage oracleOk "tp" "tv" "sk" pairsOne peerDone vanillaDone).1
        (runGenStage oracleOk "tp" "tv" "sk" pairsOne peerDone vanillaDone).2
      = runGenStage oracleOk "tp" "tv" "sk" pairsOne peerDone vanillaDone :=
  ((generation_stage_resume_idempotent oracleOk "tp" "tv" "sk" pairsOne peerDone vanillaDone
      (fun prompt => ⟨"A fine review.", rfl, by decide⟩)).1).2

/-- C8: when a stage `k ≥ 1` raises after every earlier stage in the run
completed, the runner persists a checkpoint whose `last_completed_step` is
`k - 1` and whose status tag is the error message truncated to 200
characters appended to `"error_at_step_k: "`, and re-raises the exception
(the run's outcome is the propagated error, a non-zero exit); the checkpoint
is exactly the last fully-completed stage, never beyond it. -/
theorem runner_checkpoint_on_failure :
    ∀ (stage : ℕ → Except String Unit) (pre rest : List ℕ) (k : ℕ)
      (cp : Option Checkpoint) (e : String),
      1 ≤ k → (∀ j ∈ pre, stage j = Except.ok ()) → stage k = Except.error e →
      runSteps stage (pre ++ k :: rest) cp =
        (some ⟨k - 1, "error_at_step_" ++ toString k ++ ": " ++ e.take 200⟩,
          Except.error e) := by
  intro stage pre
  induction pre with
  | nil =>
      intro rest k cp e _ _ hk
      simp [runSteps, hk]
  | cons j pre ih =>
      intro rest k cp e hk1 hpre hk
      have hj : stage j = Except.ok () := hpre j (List.mem_cons_self _ _)
      rw [List.cons_append]
      simp only [runSteps, hj]
      exact ih rest k _ e hk1 (fun j' h => hpre j' (List.mem_cons_of_mem _ h)) hk

/-- C8 witness: the theorem applied to the run `[1, 2]` where stage 1
completes and stage 2 raises `"boom"`. -/
theorem runner_checkpoint_on_failure_witness :
    runSteps stageBoom ([1] ++ 2 :: []) none =
      (some ⟨2 - 1, "error_at_step_" ++ toString 2 ++ ": " ++ "boom".take 200⟩,
        Except.error "boom") :=
  runner_checkpoint_on_failure stageBoom [1] [] 2 none "boom" (by decide)
    (by intro j hj; simp only [List.mem_singleton] at hj; subst hj; rfl) rfl

/-- C9: the remote caller retries only on recoverable conditions.  (1) a
non-200 status outside `{429, 500, 502, 503, 504}` fails immediately, with no
backoff sleep; (2) a 200 response with empty (stripped) content raises
immediately without retry; (3) persistent timeouts exhaust exactly
`MAX_RETRIES = 3` attempts, sleeping `RETRY_DELAY * 2^attempt`
(attempt = 0, 1, 2) before each retry, and raise an error carrying the last
cause rather than returning empty content; (4) the same for persistent
connection errors; (5) a retryable status followed by a good response sleeps
one base delay and returns the content. -/
theorem llm_client_retry_policy :
    ∀ net : ℕ → NetResponse,
      (∀ status content body, net 1 = NetResponse.http status content body →
          status ≠ 200 → status ∉ RETRYABLE_STATUS_CODES →
          LLMClient_generate net =
            (Except.error ("OpenRouter error HTTP " ++ toString status ++ ": " ++ body.take 500),
              []))
      ∧ (∀ content body, net 1 = NetResponse.http 200 content body → pyStrip content = "" →
          LLMClient_generate net = (Except.error "Empty response from model.", []))
      ∧ ((∀ a, net a = NetResponse.timeout) →
          LLMClient_generate net = (Except.error "Request timed out after 180s",
            (List.range MAX_RETRIES).map (fun i => RETRY_DELAY * 2 ^ i)))
      ∧ (∀ m, (∀ a, net a = NetResponse.connectionError m) →
          LLMClient_generate net = (Except.error ("Connection error: " ++ m),
            (List.range MAX_RETRIES).map (fun i => RETRY_DELAY * 2 ^ i)))
      ∧ (∀ status content₁ body₁ content₂, status ∈ RETRYABLE_STATUS_CODES →
          net 1 = NetResponse.http status content₁ body₁ →
          net 2 = NetResponse.http 200 content₂ "" → pyStrip content₂ ≠ "" →
          LLMClient_generate net = (Except.ok (pyStrip content₂), [RETRY_DELAY])) := by
  intro net
  refine ⟨?_, ?_, ?_, ?_, ?_⟩
  · intro status content body h1 h200 hmem
    simp [LLMClient_generate, MAX_RETRIES, generateAux, h1, h200, hmem]
  · intro content body h1 hstrip
    simp [LLMClient_generate, MAX_RETRIES, generateAux, h1, hstrip]
  · intro h
    simp only [LLMClient_generate, MAX_RETRIES, generateAux, h]
    norm_num [List.range_succ]
  · intro m h
    simp only [LLMClient_generate, MAX_RETRIES, generateAux, h]
    norm_num [List.range_succ]
  · intro status content₁ body₁ content₂ hmem h1 h2 hne
    have h200 : status ≠ 200 := by
      rintro rfl
      revert hmem
      decide
    simp only [LLMClient_generate, MAX_RETRIES, generateAux, h1, h2, if_neg h200,
      if_pos hmem, if_pos rfl, if_neg hne]
    norm_num

/-- C9 witness: the theorem's persistent-timeout conjunct applied to the
concrete service that times out on every attempt. -/
theorem llm_client_retry_policy_witness :
    LLMClient_generate netAllTimeout = (Except.error "Request timed out after 180s",
      (List.range MAX_RETRIES).map (fun i => RETRY_DELAY * 2 ^ i)) :=
  (llm_client_retry_policy netAllTimeout).2.2.1 (fun _ => rfl)

/-- C10: zero-trial inputs get fixed neutral values instead of failing:
`binomial_test_two_sided k 0 p0 = 1`, `wilson_ci k 0 z = (0, 1)`, and for an
all-tie outcome list the per-judge analysis reports non-tie win rate `1/2`,
Cohen's h `0`, p-value `1` (hence not significant at 0.05) and the full
confidence interval `[0, 1]`. -/
theorem zero_trials_neutral :
    ∀ (k : ℕ) (p0 z : ℝ) (L : List String) (name : String),
      binomial_test_two_sided k 0 p0 = 1
      ∧ wilson_ci k 0 z = (0, 1)
      ∧ ((∀ x ∈ L, x = "tie") →
          (analyze_single_judge L name).peer_win_rate_non_tie = 1/2
          ∧ (analyze_single_judge L name).cohens_h = 0
          ∧ (analyze_single_judge L name).binomial_p_value = 1
          ∧ (analyze_single_judge L name).ci_95_lower = 0
          ∧ (analyze_single_judge L name).ci_95_upper = 1
          ∧ ¬ (analyze_single_judge L name).significant_at_005) := by
  intro k p0 z L name
  refine ⟨by simp [binomial_test_two_sided], by simp [wilson_ci], ?_⟩
  intro hL
  have hpeer : L.count "peer" = 0 :=
    List.count_eq_zero.mpr (fun h => by have := hL _ h; simp at this)
  have hvan : L.count "vanilla" = 0 :=
    List.count_eq_zero.mpr (fun h => by have := hL _ h; simp at this)
  refine ⟨?_, ?_, ?_, ?_, ?_, ?_⟩ <;>
    · simp [analyze_single_judge, hpeer, hvan]
      try norm_num

/-- C10 witness: the theorem applied at `k = 7`, `p0 = 0.3`, `z = 1.96` and
the concrete all-tie list `["tie", "tie"]`. -/
theorem zero_trials_neutral_witness :
    binomial_test_two_sided 7 0 0.3 = 1
    ∧ wilson_ci 7 0 1.96 = (0, 1)
    ∧ ((analyze_single_judge ["tie", "tie"] "judge1_claude").peer_win_rate_non_tie = 1/2
        ∧ (analyze_single_judge ["tie", "tie"] "judge1_claude").cohens_h = 0
        ∧ (analyze_single_judge ["tie", "tie"] "judge1_claude").binomial_p_value = 1
        ∧ (analyze_single_judge ["tie", "tie"] "judge1_claude").ci_95_lower = 0
        ∧ (analyze_single_judge ["tie", "tie"] "judge1_claude").ci_95_upper = 1
        ∧ ¬ (analyze_single_judge ["tie", "tie"] "judge1_claude").significant_at_005) :=
  ⟨(zero_trials_neutral 7 0.3 1.96 ["tie", "tie"] "judge1_claude").1,
   (zero_trials_neutral 7 0.3 1.96 ["tie", "tie"] "judge1_claude").2.1,
   (zero_trials_neutral 7 0.3 1.96 ["tie", "tie"] "judge1_claude").2.2 (by decide)⟩


/-- C2: for `0 ≤ k ≤ n`, `n > 0`, the exact two-sided binomial test at null
proportion 1/2 — computed by the code as sums of `exp` of log-binomial-pmf
terms (log-space exact CDF, no normal approximation) — returns exactly
`min(2 · min(P(X ≥ k), P(X ≤ k)), 1)` where the tails are the true
`Binomial(n, 1/2)` tail probabilities. -/
theorem binomial_test_exact_two_sided :
    ∀ k n : ℕ, k ≤ n → 0 < n →
      binomial_test_two_sided k n (1/2)
        = min (2 * min (upperTailHalf k n) (lowerTailHalf k n)) 1 :=
  fun k n hkn hn => binomial_test_half_eq k n hkn hn

/-- C2 witness: the theorem applied at `k = 1`, `n = 2`. -/
theorem binomial_test_exact_two_sided_witness :
    binomial_test_two_sided 1 2 (1/2)
      = min (2 * min (upperTailHalf 1 2) (lowerTailHalf 1 2)) 1 :=
  binomial_test_exact_two_sided 1 2 (by norm_num) (by norm_num)

/-- C3: for `0 ≤ k ≤ n`, `n > 0`, the Wilson score interval at `z = 1.96`
contains the point estimate `k/n` and both bounds lie within `[0, 1]`
(the extreme cases `k = 0` and `k = n` included, since only `k ≤ n` is
assumed). -/
theorem wilson_ci_contains_estimate :
    ∀ k n : ℕ, k ≤ n → 0 < n →
      (wilson_ci k n 1.96).1 ≤ (k : ℝ) / (n : ℝ)
      ∧ (k : ℝ) / (n : ℝ) ≤ (wilson_ci k n 1.96).2
      ∧ 0 ≤ (wilson_ci k n 1.96).1 ∧ (wilson_ci k n 1.96).1 ≤ 1
      ∧ 0 ≤ (wilson_ci k n 1.96).2 ∧ (wilson_ci k n 1.96).2 ≤ 1 :=
  fun k n hkn hn => wilson_ci_props k n 1.96 (by norm_num) hkn hn

/-- C3 witness: the theorem applied at the extreme case `k = 0`, `n = 2`. -/
theorem wilson_ci_contains_estimate_witness :
    (wilson_ci 0 2 1.96).1 ≤ ((0 : ℕ) : ℝ) / ((2 : ℕ) : ℝ)
    ∧ ((0 : ℕ) : ℝ) / ((2 : ℕ) : ℝ) ≤ (wilson_ci 0 2 1.96).2
    ∧ 0 ≤ (wilson_ci 0 2 1.96).1 ∧ (wilson_ci 0 2 1.96).1 ≤ 1
    ∧ 0 ≤ (wilson_ci 0 2 1.96).2 ∧ (wilson_ci 0 2 1.96).2 ≤ 1 :=
  wilson_ci_contains_estimate 0 2 (by norm_num) (by norm_num)

/-- C5: the two-sided binomial test at null proportion 1/2 is symmetric in
successes and failures: for `0 ≤ k ≤ n`,
`binomial_test_two_sided k n (1/2) = binomial_test_two_sided (n-k) n (1/2)`. -/
theorem binomial_test_symmetric :
    ∀ k n : ℕ, k ≤ n →
      binomial_test_two_sided k n (1/2) = binomial_test_two_sided (n - k) n (1/2) := by
  intro k n hkn
  rcases Nat.eq_zero_or_pos n with rfl | hn
  · rw [Nat.le_zero.mp hkn]
  · rw [binomial_test_half_eq k n hkn hn,
      binomial_test_half_eq (n - k) n (Nat.sub_le n k) hn]
    have h1 : upperTailHalf (n - k) n = lowerTailHalf k n := (lowerTail_reflect k n hkn).symm
    have h2 : lowerTailHalf (n - k) n = upperTailHalf k n := by
      have h3 := lowerTail_reflect (n - k) n (Nat.sub_le n k)
      rwa [Nat.sub_sub_self hkn] at h3
    rw [h1, h2, min_comm (lowerTailHalf k n) (upperTailHalf k n)]

/-- C5 witness: the theorem applied at `k = 1`, `n = 3`. -/
theorem binomial_test_symmetric_witness :
    binomial_test_two_sided 1 3 (1/2) = binomial_test_two_sided (3 - 1) 3 (1/2) :=
  binomial_test_symmetric 1 3 (by norm_num)

end PeerReview

